import Mathlib

/-!
Verification development for the rust-openstack resource query and
pagination engine.

The repository's visible sources are `src/cloud.rs` (the `Cloud` facade),
`src/object_storage/api.rs` and `src/object_storage/protocol.rs`.  The
generic engine (`Query`, the pagination loop, `ResourceLoader`, the
builders) lives outside the visible tree, so those parts are modelled
from the specification (sections 4.1 to 4.4); every such definition is
marked `Modelled from the spec:` in its doc comment.  Definitions taken
from the visible Rust sources cite the file they embed.
-/

set_option autoImplicit false

namespace OpenStackSpec

/-- A server-side list capability as seen by the engine: given the
continuation marker and the requested page size, produce the page.
This abstracts `Session`'s list operation, which the engine consumes
through exactly this interface (spec section 2 and 4.3). -/
def Server (α : Type) : Type := Option String → Nat → List α

/-- Sort direction together with its key, mirroring `openstack::Sort`
as used in `src/cloud.rs` (`openstack::Sort::Asc(sorting)`). -/
inductive SortMode (K : Type) where
  | Asc (key : K)
  | Desc (key : K)
deriving DecidableEq

/-- Modelled from the spec: the configuration a `ResourceQuery<T>`
builder accumulates before a terminal call — ordered filter pairs,
the ordered sort specification, and the optional total result cap
(spec section 3, `Query`/`SortSpec`/`ResultLimit`). -/
structure QueryCfg (K : Type) where
  filters : List (String × String)
  sortSpec : List (SortMode K)
  limit : Option Nat
deriving DecidableEq

/-- Modelled from the spec: `sort_by` appends to the sort specification
(spec section 4.2). -/
def sort_by {K : Type} (cfg : QueryCfg K) (s : SortMode K) : QueryCfg K :=
  ⟨cfg.filters, cfg.sortSpec ++ [s], cfg.limit⟩

/-- Modelled from the spec: `with_limit` sets the total result cap
(spec section 4.2). -/
def with_limit {K : Type} (cfg : QueryCfg K) (n : Nat) : QueryCfg K :=
  ⟨cfg.filters, cfg.sortSpec, some n⟩

/-- One request/response of the pagination loop: the marker sent with
the request, the raw page the server returned, and the part of the page
kept after applying the result cap. -/
structure ListStep (α : Type) where
  marker : Option String
  page : List α
  kept : List α
deriving DecidableEq

/-- Whether the remaining budget (if any) is strictly smaller than the
page length, i.e. appending the whole page would exceed the cap. -/
def budgetLt : Option Nat → Nat → Bool
  | some b, n => decide (b < n)
  | none, _ => false

/-- The remaining budget, zero when unlimited (only read on the
truncation path, which is reached only for a bounded budget). -/
def budgetVal : Option Nat → Nat
  | some b => b
  | none => 0

/-- Modelled from the spec: the pagination loop of section 4.3, driven
by explicit fuel (the number of page requests the loop is still allowed
to issue; the returned flag is `true` iff the loop came to one of its
own stopping conditions before the fuel ran out).  Each iteration
requests one page, stops on an empty page, truncates and stops when the
page would exceed the remaining budget, stops when the computed next
marker equals the marker just used (defensive loop break) or when the
page is shorter than the requested page size, and otherwise recurses
with the marker taken from the last item of the page. -/
def paginateAux {α : Type} (server : Server α) (markerOf : α → String) (pageSize : Nat) :
    Nat → Option String → Option Nat → List (ListStep α) × Bool
  | 0, _, _ => ([], false)
  | fuel + 1, marker, budget =>
    let page := server marker pageSize
    if page.isEmpty then ([⟨marker, page, []⟩], true)
    else if budgetLt budget page.length then
      ([⟨marker, page, page.take (budgetVal budget)⟩], true)
    else
      let next := page.getLast?.map markerOf
      if next = marker then ([⟨marker, page, page⟩], true)
      else if page.length < pageSize then ([⟨marker, page, page⟩], true)
      else
        let r := paginateAux server markerOf pageSize fuel next
          (budget.map (fun b => b - page.length))
        (⟨marker, page, page⟩ :: r.1, r.2)

/-- The items a run of the pagination loop hands back to the caller:
the concatenation of the kept parts of all pages. -/
def stepsItems {α : Type} (steps : List (ListStep α)) : List α :=
  (steps.map ListStep.kept).flatten

/-- Modelled from the spec: the terminal operation `all()` (spec
section 4.2/4.3) as a request/response trace.  A limit of zero
short-circuits without issuing any request; otherwise the pagination
loop runs starting from no marker with the configured cap as budget. -/
def allSteps {α K : Type} (cfg : QueryCfg K) (server : Server α) (markerOf : α → String)
    (pageSize fuel : Nat) : List (ListStep α) × Bool :=
  if cfg.limit = some 0 then ([], true)
  else paginateAux server markerOf pageSize fuel none cfg.limit

/-- The item sequence returned by `all()`. -/
def allItems {α K : Type} (cfg : QueryCfg K) (server : Server α) (markerOf : α → String)
    (pageSize fuel : Nat) : List α :=
  stepsItems (allSteps cfg server markerOf pageSize fuel).1

/-- The number of page requests `all()` issues. -/
def allRequests {α K : Type} (cfg : QueryCfg K) (server : Server α) (markerOf : α → String)
    (pageSize fuel : Nat) : Nat :=
  (allSteps cfg server markerOf pageSize fuel).1.length

/-- Whether `all()` reached one of its own stopping conditions within
the given fuel. -/
def allDone {α K : Type} (cfg : QueryCfg K) (server : Server α) (markerOf : α → String)
    (pageSize fuel : Nat) : Bool :=
  (allSteps cfg server markerOf pageSize fuel).2

/-- Modelled from the spec: the single request/response of the terminal
operation `fetch()` (spec section 4.2): one page request with no
marker, the result trimmed to the cap when the cap is smaller than the
page. -/
def fetchStep {α K : Type} (cfg : QueryCfg K) (server : Server α) (pageSize : Nat) :
    ListStep α :=
  let page := server none pageSize
  ⟨none, page,
    match cfg.limit with
    | some b => if b < page.length then page.take b else page
    | none => page⟩

/-- The request/response trace of `fetch()`: exactly one step. -/
def fetchSteps {α K : Type} (cfg : QueryCfg K) (server : Server α) (pageSize : Nat) :
    List (ListStep α) :=
  [fetchStep cfg server pageSize]

/-- The item sequence returned by `fetch()`. -/
def fetchItems {α K : Type} (cfg : QueryCfg K) (server : Server α) (pageSize : Nat) :
    List α :=
  (fetchStep cfg server pageSize).kept

/-- Drop elements up to and including the first whose marker field
equals the given key; the position a continuation marker denotes. -/
def dropThroughKey {α : Type} (markerOf : α → String) (k : String) : List α → List α
  | [] => []
  | x :: xs => if markerOf x = k then xs else dropThroughKey markerOf k xs

/-- The suffix of the dataset that an honest marker-based server serves
after the given marker: everything for no marker, and everything past
the item carrying the marker otherwise. -/
def afterMarker {α : Type} (markerOf : α → String) (data : List α) :
    Option String → List α
  | none => data
  | some k => dropThroughKey markerOf k data

/-- An honest marker-paginated server over a fixed dataset: it answers
a request by taking one page off the suffix that follows the marker. -/
def honestServer {α : Type} (data : List α) (markerOf : α → String) : Server α :=
  fun marker pageSize => (afterMarker markerOf data marker).take pageSize

/-- The error taxonomy of spec section 7 restricted to the variants the
visible material exercises: failed name resolution, ambiguous name
resolution carrying the conflicting identifiers, and a response that
did not match the expected schema. -/
inductive OsError where
  | NotFound
  | Ambiguous (ids : List String)
  | Deserialization
deriving DecidableEq

/-- A resource as `ResourceLoader` sees it: a canonical identifier and
a human-readable name. -/
structure Resource where
  id : String
  name : String
deriving DecidableEq

/-- Modelled from the spec: `ResourceLoader.load` of section 4.4 (the
engine behind `Cloud::get_server` and the other `get_*` operations in
`src/cloud.rs`, whose `Server::load` implementation is outside the
visible tree).  A direct by-identifier lookup is attempted when the
input has identifier shape; on a miss it falls through to an exact-name
query over the dataset, failing with `NotFound` on zero matches,
succeeding on exactly one, and failing with `Ambiguous` carrying all
conflicting identifiers on more than one. -/
def load (isIdShaped : String → Bool) (byId : String → Option Resource)
    (data : List Resource) (x : String) : Except OsError Resource :=
  match (if isIdShaped x then byId x else none) with
  | some r => Except.ok r
  | none =>
    match data.filter (fun r => r.name == x) with
    | [] => Except.error OsError.NotFound
    | [r] => Except.ok r
    | r1 :: r2 :: rest => Except.error (OsError.Ambiguous ((r1 :: r2 :: rest).map Resource.id))

/-- The wire-level query: ordered key/value pairs. -/
def WireQuery : Type := List (String × String)

/-- Modelled from the spec: `Query.set`, the operation behind
`utils::Query::push_str` used by `src/object_storage/api.rs` (the
`utils` module is outside the visible tree): it overwrites the value of
an existing key in place, preserving insertion order, and appends the
pair when the key is new (spec section 4.1). -/
def qset (q : WireQuery) (k v : String) : WireQuery :=
  match q with
  | [] => [(k, v)]
  | p :: rest => if p.1 = k then (k, v) :: rest else p :: qset rest k v

/-- The pairs of a wire query carrying the given key. -/
def keyEntries (q : WireQuery) (k : String) : WireQuery :=
  q.filter (fun p => p.1 == k)

/-- A wire query is well formed when no key occurs twice; every query
built from the empty query through `qset` is (spec section 3,
last-write-wins invariant). -/
def WellFormedQuery (q : WireQuery) : Prop :=
  ∀ k : String, (keyEntries q k).length ≤ 1

/-- A calendar timestamp in UTC, the decoded form of an HTTP-date
string (`chrono::DateTime<Utc>` in `src/object_storage/protocol.rs`). -/
structure HttpDate where
  year : Nat
  month : Nat
  day : Nat
  hour : Nat
  minute : Nat
  second : Nat
deriving DecidableEq

/-- Split a character list on a separator character. -/
def splitOnChar (c : Char) : List Char → List (List Char)
  | [] => [[]]
  | x :: xs =>
    let r := splitOnChar c xs
    if x = c then [] :: r
    else
      match r with
      | [] => [[x]]
      | g :: gs => (x :: g) :: gs

/-- The numeric value of a decimal digit character, if it is one. -/
def charDigit (c : Char) : Option Nat :=
  if c.isDigit then some (c.toNat - 48) else none

/-- Parse exactly two decimal digits. -/
def parse2 : List Char → Option Nat
  | [a, b] => do
    let da ← charDigit a
    let db ← charDigit b
    pure (10 * da + db)
  | _ => none

/-- Parse exactly four decimal digits. -/
def parse4 : List Char → Option Nat
  | [a, b, c, d] => do
    let da ← charDigit a
    let db ← charDigit b
    let dc ← charDigit c
    let dd ← charDigit d
    pure (1000 * da + 100 * db + 10 * dc + dd)
  | _ => none

/-- The month number of an RFC 1123 month abbreviation. -/
def monthNum (l : List Char) : Option Nat :=
  if l = ['J', 'a', 'n'] then some 1
  else if l = ['F', 'e', 'b'] then some 2
  else if l = ['M', 'a', 'r'] then some 3
  else if l = ['A', 'p', 'r'] then some 4
  else if l = ['M', 'a', 'y'] then some 5
  else if l = ['J', 'u', 'n'] then some 6
  else if l = ['J', 'u', 'l'] then some 7
  else if l = ['A', 'u', 'g'] then some 8
  else if l = ['S', 'e', 'p'] then some 9
  else if l = ['O', 'c', 't'] then some 10
  else if l = ['N', 'o', 'v'] then some 11
  else if l = ['D', 'e', 'c'] then some 12
  else none

/-- The RFC 1123 weekday abbreviations, with the trailing comma. -/
def weekdays : List (List Char) :=
  [['M', 'o', 'n', ','], ['T', 'u', 'e', ','], ['W', 'e', 'd', ','],
   ['T', 'h', 'u', ','], ['F', 'r', 'i', ','], ['S', 'a', 't', ','],
   ['S', 'u', 'n', ',']]

/-- Parse an `HH:MM:SS` time-of-day component. -/
def parseTime (l : List Char) : Option (Nat × Nat × Nat) :=
  match splitOnChar ':' l with
  | [hh, mm, ss] => do
    let h ← parse2 hh
    let m ← parse2 mm
    let s ← parse2 ss
    if h < 24 ∧ m < 60 ∧ s < 61 then pure (h, m, s) else none
  | _ => none

/-- Modelled from the spec: `common::protocol::deser_http_date`
referenced by `src/object_storage/protocol.rs` (the `common` module is
outside the visible tree) — parse an RFC 1123 HTTP-date string, such as
`Wed, 21 Oct 2023 07:28:00 GMT`, into a UTC timestamp; any malformed
input yields no value (spec section 6). -/
def deser_http_date (s : String) : Option HttpDate :=
  match splitOnChar ' ' s.data with
  | [wd, d, mon, y, t, tz] =>
    if wd ∈ weekdays ∧ tz = ['G', 'M', 'T'] then do
      let day ← parse2 d
      let m ← monthNum mon
      let yr ← parse4 y
      let hms ← parseTime t
      if 1 ≤ day ∧ day ≤ 31 then
        pure ⟨yr, m, day, hms.1, hms.2.1, hms.2.2⟩
      else none
    else none
  | _ => none

/-- A container record as it appears on the wire, before the
`last_modified` HTTP-date string has been decoded. -/
structure RawContainer where
  bytes : Nat
  count : Nat
  last_modified : String
  name : String
deriving DecidableEq

/-- The `Container` record of `src/object_storage/protocol.rs`: bytes,
count, the decoded `last_modified` timestamp, and the name. -/
structure Container where
  bytes : Nat
  count : Nat
  last_modified : HttpDate
  name : String
deriving DecidableEq

/-- Decode one wire container record, failing with a deserialization
error when its `last_modified` field is not a valid HTTP-date
(`#[serde(deserialize_with = "common::protocol::deser_http_date")]` in
`src/object_storage/protocol.rs`). -/
def deserContainer (r : RawContainer) : Except OsError Container :=
  match deser_http_date r.last_modified with
  | some d => Except.ok ⟨r.bytes, r.count, d, r.name⟩
  | none => Except.error OsError.Deserialization

/-- Decode a whole listing response: every record must decode, and the
first malformed record fails the whole call. -/
def decodeContainers : List RawContainer → Except OsError (List Container)
  | [] => Except.ok []
  | r :: rest =>
    match deserContainer r with
    | Except.error e => Except.error e
    | Except.ok c =>
      match decodeContainers rest with
      | Except.error e => Except.error e
      | Except.ok cs => Except.ok (c :: cs)

/-- The wire query `list_containers` in `src/object_storage/api.rs`
sends: the caller's query with `format=json` forced. -/
def list_containers_wire (q : WireQuery) : WireQuery :=
  qset q "format" "json"

/-- The wire query `list_objects` in `src/object_storage/api.rs` sends
for a given container: the caller's query with `format=json` forced. -/
def list_objects_wire (_container : String) (q : WireQuery) : WireQuery :=
  qset q "format" "json"

/-- Sort keys of the server resource family, from the documentation
example in `src/cloud.rs` (`ServerSortKey::AccessIpv4`) and spec
section 3. -/
inductive ServerSortKey where
  | Id
  | Name
  | Status
  | AccessIpv4
  | Created
deriving DecidableEq

/-- A generic sort-key placeholder for the resource families whose key
sets the visible material does not enumerate. -/
inductive GenericSortKey where
  | Id
  | Name
deriving DecidableEq

/-- Modelled from the spec: a `ResourceQuery<T>` builder — the
session's list capability for the resource family, the resource's
marker field, and the accumulated configuration (spec section 4.2). -/
structure ResourceQueryB (α K : Type) where
  server : Server α
  markerOf : α → String
  cfg : QueryCfg K

/-- Modelled from the spec: `ServerQuery::new` and its siblings — a
fresh builder over the shared session with no filters, no sort
specification and no limit (spec section 3, lifecycle). -/
def newQuery {α K : Type} (server : Server α) (markerOf : α → String) :
    ResourceQueryB α K :=
  ⟨server, markerOf, ⟨[], [], none⟩⟩

/-- The terminal operation `all()` on a builder. -/
def ResourceQueryB.allOf {α K : Type} (q : ResourceQueryB α K) (pageSize fuel : Nat) :
    List α :=
  allItems q.cfg q.server q.markerOf pageSize fuel

/-- The method `Cloud::find_servers` (`src/cloud.rs`): a fresh server query over
the shared session. -/
def find_servers {α : Type} (server : Server α) (markerOf : α → String) :
    ResourceQueryB α ServerSortKey :=
  newQuery server markerOf

/-- The method `Cloud::find_flavors` (`src/cloud.rs`). -/
def find_flavors {α : Type} (server : Server α) (markerOf : α → String) :
    ResourceQueryB α GenericSortKey :=
  newQuery server markerOf

/-- The method `Cloud::find_networks` (`src/cloud.rs`). -/
def find_networks {α : Type} (server : Server α) (markerOf : α → String) :
    ResourceQueryB α GenericSortKey :=
  newQuery server markerOf

/-- The method `Cloud::find_subnets` (`src/cloud.rs`). -/
def find_subnets {α : Type} (server : Server α) (markerOf : α → String) :
    ResourceQueryB α GenericSortKey :=
  newQuery server markerOf

/-- The method `Cloud::find_ports` (`src/cloud.rs`). -/
def find_ports {α : Type} (server : Server α) (markerOf : α → String) :
    ResourceQueryB α GenericSortKey :=
  newQuery server markerOf

/-- The method `Cloud::find_images` (`src/cloud.rs`). -/
def find_images {α : Type} (server : Server α) (markerOf : α → String) :
    ResourceQueryB α GenericSortKey :=
  newQuery server markerOf

/-- The method `Cloud::find_keypairs` (`src/cloud.rs`). -/
def find_keypairs {α : Type} (server : Server α) (markerOf : α → String) :
    ResourceQueryB α GenericSortKey :=
  newQuery server markerOf

/-- The method `Cloud::find_floating_ips` (`src/cloud.rs`). -/
def find_floating_ips {α : Type} (server : Server α) (markerOf : α → String) :
    ResourceQueryB α GenericSortKey :=
  newQuery server markerOf

/-- The method `Cloud::list_servers` (`src/cloud.rs`): `self.find_servers().all()`. -/
def list_servers {α : Type} (server : Server α) (markerOf : α → String)
    (pageSize fuel : Nat) : List α :=
  (find_servers server markerOf).allOf pageSize fuel

/-- The method `Cloud::list_flavors` (`src/cloud.rs`): `self.find_flavors().all()`. -/
def list_flavors {α : Type} (server : Server α) (markerOf : α → String)
    (pageSize fuel : Nat) : List α :=
  (find_flavors server markerOf).allOf pageSize fuel

/-- The method `Cloud::list_networks` (`src/cloud.rs`): `self.find_networks().all()`. -/
def list_networks {α : Type} (server : Server α) (markerOf : α → String)
    (pageSize fuel : Nat) : List α :=
  (find_networks server markerOf).allOf pageSize fuel

/-- The method `Cloud::list_subnets` (`src/cloud.rs`): `self.find_subnets().all()`. -/
def list_subnets {α : Type} (server : Server α) (markerOf : α → String)
    (pageSize fuel : Nat) : List α :=
  (find_subnets server markerOf).allOf pageSize fuel

/-- The method `Cloud::list_ports` (`src/cloud.rs`): `self.find_ports().all()`. -/
def list_ports {α : Type} (server : Server α) (markerOf : α → String)
    (pageSize fuel : Nat) : List α :=
  (find_ports server markerOf).allOf pageSize fuel

/-- The method `Cloud::list_images` (`src/cloud.rs`): `self.find_images().all()`. -/
def list_images {α : Type} (server : Server α) (markerOf : α → String)
    (pageSize fuel : Nat) : List α :=
  (find_images server markerOf).allOf pageSize fuel

/-- The method `Cloud::list_keypairs` (`src/cloud.rs`): `self.find_keypairs().all()`. -/
def list_keypairs {α : Type} (server : Server α) (markerOf : α → String)
    (pageSize fuel : Nat) : List α :=
  (find_keypairs server markerOf).allOf pageSize fuel

/-- The method `Cloud::list_floating_ips` (`src/cloud.rs`):
`self.find_floating_ips().all()`. -/
def list_floating_ips {α : Type} (server : Server α) (markerOf : α → String)
    (pageSize fuel : Nat) : List α :=
  (find_floating_ips server markerOf).allOf pageSize fuel

/-- The spec-side reference for the convenience listing methods: a
query with no filters, no sort and no limit, drained with `all()`. -/
def unconfiguredAll {α : Type} (server : Server α) (markerOf : α → String)
    (pageSize fuel : Nat) : List α :=
  allItems (⟨[], [], none⟩ : QueryCfg Unit) server markerOf pageSize fuel

/-- The observable state of `osauth::sync::SyncSession` as far as
`src/cloud.rs` mutates it: the configured endpoint interface, and an
abstract serial number bumped by `refresh` (token renewal and catalog
refetch). -/
structure SyncSession where
  endpoint_interface : String
  token : Nat
deriving DecidableEq

/-- The operation `SyncSession::set_endpoint_interface` as called by
`Cloud::with_endpoint_interface` in `src/cloud.rs`. -/
def set_endpoint_interface (s : SyncSession) (ei : String) : SyncSession :=
  ⟨ei, s.token⟩

/-- The operation `SyncSession::refresh` as called by `Cloud::refresh` in
`src/cloud.rs`: renew token, refetch service catalog. -/
def refreshSession (s : SyncSession) : SyncSession :=
  ⟨s.endpoint_interface, s.token + 1⟩

/-- A heap of reference-counted sessions: the sessions at their
addresses (list indices) together with their strong counts.  This is
the state `Rc<SyncSession>` values from `src/cloud.rs` live in. -/
structure RcWorld where
  store : List SyncSession
  count : List Nat
deriving DecidableEq

/-- The `Cloud` handle of `src/cloud.rs`: a reference-counted pointer
to a `SyncSession`. -/
structure Cloud where
  ptr : Nat
deriving DecidableEq

/-- The `Clone` implementation for `Cloud` (`#[derive(Clone)]` on `Cloud` in
`src/cloud.rs`): the new handle shares the session and bumps its
strong count. -/
def cloneCloud (w : RcWorld) (c : Cloud) : RcWorld × Cloud :=
  (⟨w.store, w.count.set c.ptr (w.count.getD c.ptr 0 + 1)⟩, ⟨c.ptr⟩)

/-- The operation `Rc::make_mut` applied to a session pointer: when the session is
uniquely owned it is mutated in place; when it is shared, a mutated
copy is allocated at a fresh address, the original count is
decremented, and the handle is repointed at the copy. -/
def rcMakeMut (w : RcWorld) (p : Nat) (f : SyncSession → SyncSession) : RcWorld × Nat :=
  if w.count.getD p 0 ≤ 1 then
    (⟨w.store.set p (f (w.store.getD p ⟨"", 0⟩)), w.count⟩, p)
  else
    (⟨w.store ++ [f (w.store.getD p ⟨"", 0⟩)],
      (w.count.set p (w.count.getD p 0 - 1)) ++ [1]⟩, w.store.length)

/-- The method `Cloud::with_endpoint_interface` (`src/cloud.rs`):
`Rc::make_mut(&mut self.session).set_endpoint_interface(ei)`. -/
def with_endpoint_interface (w : RcWorld) (c : Cloud) (ei : String) : RcWorld × Cloud :=
  let r := rcMakeMut w c.ptr (fun s => set_endpoint_interface s ei)
  (r.1, ⟨r.2⟩)

/-- The method `Cloud::refresh` (`src/cloud.rs`):
`Rc::make_mut(&mut self.session).refresh()`. -/
def cloudRefresh (w : RcWorld) (c : Cloud) : RcWorld × Cloud :=
  let r := rcMakeMut w c.ptr (fun s => refreshSession s)
  (r.1, ⟨r.2⟩)

/-- The session a handle (or a derived query builder) holding the given
address observes in a world. -/
def sessionAt (w : RcWorld) (p : Nat) : SyncSession :=
  w.store.getD p ⟨"", 0⟩

/-- The three containers of the pagination scenario: names `a`, `b`,
`m` with 10, 20 and 5 bytes, in server order. -/
def scenarioContainers : List Container :=
  [⟨10, 0, ⟨2023, 10, 21, 7, 28, 0⟩, "a"⟩,
   ⟨20, 0, ⟨2023, 10, 21, 7, 28, 0⟩, "b"⟩,
   ⟨5, 0, ⟨2023, 10, 21, 7, 28, 0⟩, "m"⟩]

@[simp]
theorem stepsItems_nil {α : Type} : stepsItems ([] : List (ListStep α)) = [] := rfl

@[simp]
theorem stepsItems_cons {α : Type} (s : ListStep α) (t : List (ListStep α)) :
    stepsItems (s :: t) = s.kept ++ stepsItems t := rfl

/-- Any run of the pagination loop with a bounded budget keeps at most
that many items: every iteration either truncates to the remaining
budget and stops, or keeps a page that fits and recurses on the
reduced budget. -/
theorem paginate_budget_le {α : Type} (server : Server α) (markerOf : α → String)
    (P : Nat) : ∀ (fuel : Nat) (marker : Option String) (b : Nat),
    (stepsItems (paginateAux server markerOf P fuel marker (some b)).1).length ≤ b := by
  intro fuel
  induction fuel with
  | zero => intro marker b; simp [paginateAux]
  | succ n ih =>
    intro marker b
    simp only [paginateAux]
    by_cases h1 : (server marker P).isEmpty
    · rw [if_pos h1]; simp
    · rw [if_neg h1]
      by_cases h2 : b < (server marker P).length
      · rw [if_pos (show budgetLt (some b) (server marker P).length = true by
          simp [budgetLt, h2])]
        simp only [stepsItems_cons, stepsItems_nil, List.append_nil, budgetVal,
          List.length_take]
        omega
      · rw [if_neg (show ¬ budgetLt (some b) (server marker P).length = true by
          simp [budgetLt, h2])]
        by_cases h3 : ((server marker P).getLast?.map markerOf) = marker
        · rw [if_pos h3]
          simp only [stepsItems_cons, stepsItems_nil, List.append_nil]
          omega
        · rw [if_neg h3]
          by_cases h4 : (server marker P).length < P
          · rw [if_pos h4]
            simp only [stepsItems_cons, stepsItems_nil, List.append_nil]
            omega
          · rw [if_neg h4]
            have hmap : ((some b).map fun x => x - (server marker P).length) =
                some (b - (server marker P).length) := rfl
            simp only [stepsItems_cons, List.length_append, hmap]
            have hrec := ih ((server marker P).getLast?.map markerOf)
              (b - (server marker P).length)
            omega

/-- C1: for every `n`, a query configured with `with_limit(n)` followed
by the terminal operation `all()` returns a sequence of length at most
`n`; and for `n = 0`, `all()` returns the empty sequence while issuing
zero network requests through the session. -/
theorem with_limit_all_bounded {α K : Type} (cfg : QueryCfg K) (server : Server α)
    (markerOf : α → String) (P fuel n : Nat) :
    (allItems (with_limit cfg n) server markerOf P fuel).length ≤ n ∧
    (n = 0 → allItems (with_limit cfg n) server markerOf P fuel = [] ∧
      allRequests (with_limit cfg n) server markerOf P fuel = 0) := by
  constructor
  · by_cases h : n = 0
    · subst h
      simp [allItems, allSteps, with_limit]
    · have hl : (with_limit cfg n).limit = some n := rfl
      unfold allItems allSteps
      rw [hl, if_neg (by simpa using h)]
      exact paginate_budget_le server markerOf P fuel none n
  · intro h
    subst h
    exact ⟨by simp [allItems, allSteps, with_limit],
      by simp [allRequests, allSteps, with_limit]⟩

/-- Witness for C1, at `n = 0` against a server that would return one
item if it were ever asked. -/
theorem with_limit_all_bounded_witness :
    allItems (with_limit (⟨[], [], none⟩ : QueryCfg Unit) 0)
        (fun _ _ => ([0] : List Nat)) (fun _ => "x") 1 5 = [] ∧
    allRequests (with_limit (⟨[], [], none⟩ : QueryCfg Unit) 0)
        (fun _ _ => ([0] : List Nat)) (fun _ => "x") 1 5 = 0 :=
  (with_limit_all_bounded ⟨[], [], none⟩ (fun _ _ => ([0] : List Nat))
    (fun _ => "x") 1 5 0).2 rfl

/-- Dropping through the marker of `x` in a dataset whose marker
values are all distinct lands exactly on the suffix after `x`. -/
theorem dropThroughKey_append {α : Type} (markerOf : α → String) (l1 : List α) (x : α)
    (l2 : List α) (h : ((l1 ++ x :: l2).map markerOf).Nodup) :
    dropThroughKey markerOf (markerOf x) (l1 ++ x :: l2) = l2 := by
  induction l1 with
  | nil => simp [dropThroughKey]
  | cons y t ih =>
    have hmem : markerOf x ∈ (t ++ x :: l2).map markerOf :=
      List.mem_map_of_mem markerOf (by simp)
    have hcons : (((y :: t) ++ x :: l2).map markerOf) =
        markerOf y :: ((t ++ x :: l2).map markerOf) := by simp
    rw [hcons] at h
    have hy : markerOf y ≠ markerOf x := by
      intro he
      exact (List.nodup_cons.mp h).1 (he ▸ hmem)
    simp only [List.cons_append, dropThroughKey, if_neg hy]
    exact ih (List.nodup_cons.mp h).2

/-- The honest-server analysis of the pagination loop: starting from
any position in a dataset with pairwise-distinct markers, the loop
reaches one of its stopping conditions within the fuel, issues at most
`rest.length / P + 1` requests, and the items it keeps form a prefix
of the remaining suffix `rest`. -/
theorem paginate_honest {α : Type} (markerOf : α → String) (data : List α) (P : Nat)
    (hP : 1 ≤ P) (hnd : (data.map markerOf).Nodup) :
    ∀ (fuel : Nat) (front rest : List α) (marker : Option String) (budget : Option Nat),
      data = front ++ rest →
      afterMarker markerOf data marker = rest →
      rest.length + 1 ≤ fuel →
      (paginateAux (honestServer data markerOf) markerOf P fuel marker budget).2 = true ∧
      (paginateAux (honestServer data markerOf) markerOf P fuel marker budget).1.length ≤
        rest.length / P + 1 ∧
      ∃ m : Nat,
        stepsItems (paginateAux (honestServer data markerOf) markerOf P fuel marker budget).1 =
          rest.take m := by
  obtain ⟨p, rfl⟩ : ∃ p, P = p + 1 := ⟨P - 1, by omega⟩
  intro fuel
  induction fuel with
  | zero =>
    intro front rest marker budget hd hm hf
    omega
  | succ n ih =>
    intro front rest marker budget hd hm hf
    have hpage : honestServer data markerOf marker (p + 1) = rest.take (p + 1) := by
      unfold honestServer
      rw [hm]
    simp only [paginateAux, hpage]
    cases rest with
    | nil =>
      rw [if_pos (by simp)]
      exact ⟨rfl, by simp, 0, by simp⟩
    | cons x rest' =>
      rw [if_neg (by simp)]
      by_cases hb : budgetLt budget ((x :: rest').take (p + 1)).length = true
      · rw [if_pos hb]
        refine ⟨rfl, by simp, min (budgetVal budget) (p + 1), ?_⟩
        simp only [stepsItems_cons, stepsItems_nil, List.append_nil]
        exact List.take_take (budgetVal budget) (p + 1) (x :: rest')
      · rw [if_neg hb]
        by_cases h3 : (((x :: rest').take (p + 1)).getLast?.map markerOf) = marker
        · rw [if_pos h3]
          exact ⟨rfl, by simp, p + 1, by simp [stepsItems]⟩
        · rw [if_neg h3]
          by_cases h4 : ((x :: rest').take (p + 1)).length < p + 1
          · rw [if_pos h4]
            exact ⟨rfl, by simp, p + 1, by simp [stepsItems]⟩
          · rw [if_neg h4]
            have hlenpage : ((x :: rest').take (p + 1)).length = p + 1 := by
              simp only [List.length_take] at h4 ⊢
              omega
            have hple : p + 1 ≤ (x :: rest').length := by
              simp only [List.length_take] at hlenpage
              omega
            have hne : (x :: rest').take (p + 1) ≠ [] := by
              intro he
              rw [he] at hlenpage
              simp at hlenpage
            obtain ⟨lx, hgl⟩ : ∃ lx, ((x :: rest').take (p + 1)).getLast? = some lx := by
              cases hq : ((x :: rest').take (p + 1)).getLast? with
              | none => exact absurd (List.getLast?_eq_none_iff.mp hq) hne
              | some lx => exact ⟨lx, rfl⟩
            obtain ⟨init, hinit⟩ : ∃ init, (x :: rest').take (p + 1) = init ++ [lx] :=
              List.getLast?_eq_some_iff.mp hgl
            have hsplit : (x :: rest') =
                (x :: rest').take (p + 1) ++ (x :: rest').drop (p + 1) :=
              (List.take_append_drop (p + 1) (x :: rest')).symm
            have hx : (x :: rest') = init ++ [lx] ++ (x :: rest').drop (p + 1) := by
              conv_lhs => rw [hsplit]
              rw [hinit]
            have hdata : data = (front ++ init) ++ lx :: (x :: rest').drop (p + 1) := by
              rw [hd]
              conv_lhs => rw [hx]
              simp
            have hnext : afterMarker markerOf data (some (markerOf lx)) =
                (x :: rest').drop (p + 1) := by
              unfold afterMarker
              rw [hdata]
              exact dropThroughKey_append markerOf (front ++ init) lx _ (by rw [← hdata]; exact hnd)
            have hdata' : data = (front ++ (x :: rest').take (p + 1)) ++
                (x :: rest').drop (p + 1) := by
              rw [hd]
              conv_lhs => rw [hsplit]
              rw [List.append_assoc]
            have hplec : p + 1 ≤ rest'.length + 1 := by
              simpa using hple
            have hfc : rest'.length + 2 ≤ n + 1 := by
              simpa using hf
            have hfuel' : ((x :: rest').drop (p + 1)).length + 1 ≤ n := by
              rw [List.length_drop]
              simp only [List.length_cons]
              omega
            have hIH := ih (front ++ (x :: rest').take (p + 1)) ((x :: rest').drop (p + 1))
              (((x :: rest').take (p + 1)).getLast?.map markerOf)
              (budget.map (fun b => b - ((x :: rest').take (p + 1)).length))
              hdata' (by rw [hgl]; exact hnext) hfuel'
            refine ⟨hIH.1, ?_, ?_⟩
            · have hdiv : (x :: rest').length / (p + 1) =
                  ((x :: rest').length - (p + 1)) / (p + 1) + 1 :=
                Nat.div_eq_sub_div (by omega) hple
              have hIHlen := hIH.2.1
              rw [List.length_drop] at hIHlen
              rw [List.length_cons, hdiv]
              exact Nat.add_le_add_right hIHlen 1
            · obtain ⟨m, hm'⟩ := hIH.2.2
              refine ⟨(p + 1) + m, ?_⟩
              have htk : (x :: rest').take ((p + 1) + m) =
                  (x :: rest').take (p + 1) ++ ((x :: rest').drop (p + 1)).take m :=
                List.take_add (x :: rest') (p + 1) m
              rw [htk]
              simp only [stepsItems_cons]
              rw [hm']

/-- C2: against an honest marker-paginated server over a dataset of
`N` items with page size `P`, the pagination loop behind `all()`
reaches a stopping condition within the fuel and issues at most
`⌈N / P⌉ + 1` page requests; and against any server whose follow-up
pages fail to advance the marker (an empty page, or a page whose last
item carries the very marker that was sent), the loop stops within two
requests rather than looping forever. -/
theorem pagination_terminates_bounded {α K : Type} :
    (∀ (cfg : QueryCfg K) (data : List α) (markerOf : α → String) (P fuel : Nat),
      1 ≤ P → (data.map markerOf).Nodup → data.length + 1 ≤ fuel →
      allDone cfg (honestServer data markerOf) markerOf P fuel = true ∧
      allRequests cfg (honestServer data markerOf) markerOf P fuel ≤
        (data.length + P - 1) / P + 1) ∧
    (∀ (server : Server α) (markerOf : α → String) (P fuel : Nat) (budget : Option Nat),
      2 ≤ fuel →
      (∀ (s : String) (q : Nat), server (some s) q = [] ∨
        (server (some s) q).getLast?.map markerOf = some s) →
      (paginateAux server markerOf P fuel none budget).2 = true ∧
      (paginateAux server markerOf P fuel none budget).1.length ≤ 2) := by
  constructor
  · intro cfg data markerOf P fuel hP hnd hf
    unfold allDone allRequests allSteps
    by_cases hc : cfg.limit = some 0
    · rw [if_pos hc]
      exact ⟨rfl, by simp⟩
    · rw [if_neg hc]
      have h := paginate_honest markerOf data P hP hnd fuel [] data none cfg.limit rfl rfl hf
      refine ⟨h.1, le_trans h.2.1 ?_⟩
      have hle : data.length ≤ data.length + P - 1 := by omega
      exact Nat.add_le_add_right (Nat.div_le_div_right hle) 1
  · intro server markerOf P fuel budget hfuel hadv
    obtain ⟨f, rfl⟩ : ∃ f, fuel = f + 2 := ⟨fuel - 2, by omega⟩
    simp only [paginateAux]
    by_cases h1 : (server none P).isEmpty
    · rw [if_pos h1]
      exact ⟨rfl, by simp⟩
    · rw [if_neg h1]
      by_cases hb : budgetLt budget (server none P).length = true
      · rw [if_pos hb]
        exact ⟨rfl, by simp⟩
      · rw [if_neg hb]
        have hne : server none P ≠ [] := by simpa using h1
        obtain ⟨lx, hgl⟩ : ∃ lx, (server none P).getLast? = some lx := by
          cases hq : (server none P).getLast? with
          | none => exact absurd (List.getLast?_eq_none_iff.mp hq) hne
          | some lx => exact ⟨lx, rfl⟩
        have hno : ¬ ((server none P).getLast?.map markerOf = none) := by
          rw [hgl]
          simp
        rw [if_neg hno]
        by_cases h4 : (server none P).length < P
        · rw [if_pos h4]
          exact ⟨rfl, by simp⟩
        · rw [if_neg h4]
          rw [hgl]
          simp only [Option.map_some']
          rcases hadv (markerOf lx) P with hemp | hlast
          · rw [if_pos (by simp [hemp])]
            exact ⟨rfl, by simp⟩
          · by_cases h1' : (server (some (markerOf lx)) P).isEmpty
            · rw [if_pos h1']
              exact ⟨rfl, by simp⟩
            · rw [if_neg h1']
              by_cases hb' : budgetLt (Option.map (fun b => b - (server none P).length) budget)
                  (server (some (markerOf lx)) P).length = true
              · rw [if_pos hb']
                exact ⟨rfl, by simp⟩
              · rw [if_neg hb']
                rw [if_pos hlast]
                exact ⟨rfl, by simp⟩

/-- Witness for C2: three items `a`, `b`, `m` with page size 2 need at
most `⌈3/2⌉ + 1 = 3` requests, and the loop finishes. -/
theorem pagination_terminates_bounded_witness :
    1 ≤ 2 ∧ ((["a", "b", "m"].map (fun s => s)).Nodup) ∧ (3 + 1 ≤ 4) ∧
    (allDone (⟨[], [], none⟩ : QueryCfg Unit) (honestServer ["a", "b", "m"] (fun s => s))
        (fun s => s) 2 4 = true ∧
      allRequests (⟨[], [], none⟩ : QueryCfg Unit) (honestServer ["a", "b", "m"] (fun s => s))
        (fun s => s) 2 4 ≤ (3 + 2 - 1) / 2 + 1) :=
  ⟨by decide, by decide, by decide,
    pagination_terminates_bounded.1 ⟨[], [], none⟩ ["a", "b", "m"] (fun s => s) 2 4
      (by decide) (by decide) (by decide)⟩

@[simp]
theorem budgetLt_zero (b : Option Nat) : budgetLt b 0 = false := by
  cases b <;> simp [budgetLt]

/-- The single page `fetch()` keeps, expressed through the same budget
test the pagination loop uses. -/
theorem fetchItems_eq {α K : Type} (cfg : QueryCfg K) (server : Server α) (P : Nat) :
    fetchItems cfg server P =
      if budgetLt cfg.limit (server none P).length then
        (server none P).take (budgetVal cfg.limit)
      else server none P := by
  unfold fetchItems fetchStep
  cases hcl : cfg.limit with
  | none => simp [budgetLt]
  | some b =>
    by_cases hb : b < (server none P).length
    · simp [budgetLt, budgetVal, hb]
    · simp [budgetLt, budgetVal, hb]

/-- C4: with an unchanged configuration and server, the sequence
returned by `fetch()` is a prefix of the sequence returned by `all()`,
and the trace of `fetch()` is exactly one page request — it never
follows the pagination marker. -/
theorem fetch_prefix_of_all {α K : Type} (cfg : QueryCfg K) (server : Server α)
    (markerOf : α → String) (P fuel : Nat) (hfuel : 1 ≤ fuel) :
    (∃ t, fetchItems cfg server P ++ t = allItems cfg server markerOf P fuel) ∧
    (fetchSteps cfg server P).length = 1 := by
  refine ⟨?_, rfl⟩
  obtain ⟨f, rfl⟩ : ∃ f, fuel = f + 1 := ⟨fuel - 1, by omega⟩
  rw [fetchItems_eq]
  unfold allItems allSteps
  by_cases hc : cfg.limit = some 0
  · rw [if_pos hc, hc]
    by_cases hp : (server none P).isEmpty
    · refine ⟨[], ?_⟩
      have hpe := List.isEmpty_iff.mp hp
      rw [if_neg (by simp [hpe])]
      simp [hpe]
    · refine ⟨[], ?_⟩
      have hlen : 0 < (server none P).length :=
        List.length_pos.mpr (by simpa using hp)
      rw [if_pos (by simp [budgetLt, hlen])]
      simp [budgetVal]
  · rw [if_neg hc]
    simp only [paginateAux]
    by_cases h1 : (server none P).isEmpty
    · rw [if_pos h1]
      refine ⟨[], ?_⟩
      have hpe := List.isEmpty_iff.mp h1
      rw [if_neg (by simp [hpe])]
      simp [hpe]
    · rw [if_neg h1]
      by_cases hb : budgetLt cfg.limit (server none P).length = true
      · rw [if_pos hb, if_pos hb]
        exact ⟨[], by simp⟩
      · rw [if_neg hb, if_neg hb]
        have hne : server none P ≠ [] := by simpa using h1
        obtain ⟨lx, hgl⟩ : ∃ lx, (server none P).getLast? = some lx := by
          cases hq : (server none P).getLast? with
          | none => exact absurd (List.getLast?_eq_none_iff.mp hq) hne
          | some lx => exact ⟨lx, rfl⟩
        have hno : ¬ ((server none P).getLast?.map markerOf = none) := by
          rw [hgl]
          simp
        rw [if_neg hno]
        by_cases h4 : (server none P).length < P
        · rw [if_pos h4]
          exact ⟨[], by simp⟩
        · rw [if_neg h4]
          exact ⟨stepsItems (paginateAux server markerOf P f
            ((server none P).getLast?.map markerOf)
            (Option.map (fun b => b - (server none P).length) cfg.limit)).1, by simp⟩

/-- Witness for C4 against a concrete one-item server. -/
theorem fetch_prefix_of_all_witness :
    1 ≤ 1 ∧
    ((∃ t, fetchItems (⟨[], [], none⟩ : QueryCfg Unit) (fun _ _ => ([5] : List Nat)) 1 ++ t =
        allItems (⟨[], [], none⟩ : QueryCfg Unit) (fun _ _ => ([5] : List Nat))
          (fun _ => "k") 1 1) ∧
      (fetchSteps (⟨[], [], none⟩ : QueryCfg Unit) (fun _ _ => ([5] : List Nat)) 1).length = 1) :=
  ⟨by decide,
    fetch_prefix_of_all ⟨[], [], none⟩ (fun _ _ => ([5] : List Nat)) (fun _ => "k") 1 1
      (by decide)⟩

/-- If the pagination loop produced any steps, the first one carries
exactly the marker the loop was started with. -/
theorem paginateAux_head_marker {α : Type} (server : Server α) (markerOf : α → String)
    (P : Nat) (fuel : Nat) (marker : Option String) (budget : Option Nat) :
    ∀ s ∈ (paginateAux server markerOf P fuel marker budget).1.head?, s.marker = marker := by
  cases fuel with
  | zero =>
    intro s hs
    simp [paginateAux] at hs
  | succ n =>
    intro s hs
    simp only [paginateAux] at hs
    repeat' split at hs
    all_goals simp at hs
    all_goals subst hs
    all_goals rfl

/-- Consecutive steps of any pagination run are marker-chained: each
follow-up request's marker is computed from the last item of the
previous page. -/
theorem paginateAux_markers_chain {α : Type} (server : Server α) (markerOf : α → String)
    (P : Nat) : ∀ (fuel : Nat) (marker : Option String) (budget : Option Nat),
    List.Chain' (fun s t => t.marker = s.page.getLast?.map markerOf)
      (paginateAux server markerOf P fuel marker budget).1 := by
  intro fuel
  induction fuel with
  | zero =>
    intro marker budget
    simp [paginateAux]
  | succ n ih =>
    intro marker budget
    simp only [paginateAux]
    split
    · simp
    · split
      · simp
      · split
        · simp
        · split
          · simp
          · rw [List.chain'_cons']
            refine ⟨?_, ih _ _⟩
            intro t ht
            exact paginateAux_head_marker server markerOf P n
              ((server marker P).getLast?.map markerOf)
              (budget.map fun b => b - (server marker P).length) t ht

/-- C5: for object-storage listings the continuation marker sent with
each follow-up page request is the `name` of the last item of the
previous page; concretely, listing the containers `a`, `b`, `m` with
page size 2 returns all three in server order across exactly two page
requests, the marker of the request after page one being `"b"`. -/
theorem container_marker_pagination :
    (∀ (server : Server Container) (P fuel : Nat) (marker : Option String)
        (budget : Option Nat),
      List.Chain' (fun s t => t.marker = s.page.getLast?.map Container.name)
        (paginateAux server Container.name P fuel marker budget).1) ∧
    (allItems (⟨[], [], none⟩ : QueryCfg Unit)
        (honestServer scenarioContainers Container.name) Container.name 2 4 =
      scenarioContainers ∧
    allRequests (⟨[], [], none⟩ : QueryCfg Unit)
        (honestServer scenarioContainers Container.name) Container.name 2 4 = 2 ∧
    (allSteps (⟨[], [], none⟩ : QueryCfg Unit)
        (honestServer scenarioContainers Container.name) Container.name 2 4).1.map
      ListStep.marker = [none, some "b"] ∧
    allDone (⟨[], [], none⟩ : QueryCfg Unit)
        (honestServer scenarioContainers Container.name) Container.name 2 4 = true) :=
  ⟨fun server P fuel marker budget =>
      paginateAux_markers_chain server Container.name P fuel marker budget,
    by decide, by decide, by decide, by decide⟩

/-- C8: after `sort_by(Ascending(field))` on a server-side-supported
key — the honest server's dataset is already non-decreasing in the
sort field — the full result of `all()` is sorted by that field: each
item's field value is at most its successor's. -/
theorem sort_by_asc_sorted {α K : Type} (cfg : QueryCfg K) (k : K) (f : α → Nat)
    (data : List α) (markerOf : α → String) (P fuel : Nat)
    (hP : 1 ≤ P) (hnd : (data.map markerOf).Nodup)
    (hfuel : data.length + 1 ≤ fuel)
    (hsorted : data.Pairwise (fun a b => f a ≤ f b)) :
    List.Chain' (fun a b => f a ≤ f b)
      (allItems (sort_by cfg (SortMode.Asc k)) (honestServer data markerOf)
        markerOf P fuel) := by
  unfold allItems allSteps
  by_cases hc : (sort_by cfg (SortMode.Asc k)).limit = some 0
  · rw [if_pos hc]
    simp
  · rw [if_neg hc]
    obtain ⟨m, hm⟩ := (paginate_honest markerOf data P hP hnd fuel [] data none
      (sort_by cfg (SortMode.Asc k)).limit rfl rfl hfuel).2.2
    rw [hm]
    exact (hsorted.sublist (List.take_sublist m data)).chain'

/-- Witness for C8 over the sorted dataset `[1, 2, 3]`. -/
theorem sort_by_asc_sorted_witness :
    1 ≤ 2 ∧ (([1, 2, 3].map Nat.repr).Nodup) ∧ 3 + 1 ≤ 4 ∧
    ([1, 2, 3].Pairwise (fun a b => a ≤ b)) ∧
    List.Chain' (fun a b => a ≤ b)
      (allItems (sort_by (⟨[], [], none⟩ : QueryCfg ServerSortKey)
          (SortMode.Asc ServerSortKey.AccessIpv4))
        (honestServer [1, 2, 3] Nat.repr) Nat.repr 2 4) :=
  ⟨by decide, by decide, by decide, by decide,
    sort_by_asc_sorted ⟨[], [], none⟩ ServerSortKey.AccessIpv4 (fun n => n) [1, 2, 3]
      Nat.repr 2 4 (by decide) (by decide) (by decide) (by decide)⟩

/-- C3: when the direct by-identifier lookup does not apply (the input
is not identifier-shaped, or the lookup misses), `load` returns the
unique resource whose name matches, fails with `NotFound` on zero
matches, and fails with `Ambiguous` carrying all conflicting
identifiers on two or more matches — never the first of several. -/
theorem load_name_resolution (isIdShaped : String → Bool) (byId : String → Option Resource)
    (data : List Resource) (x : String)
    (hmiss : isIdShaped x = false ∨ byId x = none) :
    (data.filter (fun r => r.name == x) = [] →
      load isIdShaped byId data x = Except.error OsError.NotFound) ∧
    (∀ r, data.filter (fun r => r.name == x) = [r] →
      load isIdShaped byId data x = Except.ok r) ∧
    (∀ r1 r2 rest, data.filter (fun r => r.name == x) = r1 :: r2 :: rest →
      load isIdShaped byId data x =
        Except.error (OsError.Ambiguous ((r1 :: r2 :: rest).map Resource.id))) := by
  have hdirect : (if isIdShaped x then byId x else none) = none := by
    rcases hmiss with h | h
    · rw [h]
      simp
    · by_cases hi : isIdShaped x <;> simp [hi, h]
  refine ⟨?_, ?_, ?_⟩
  · intro hf
    unfold load
    rw [hdirect, hf]
  · intro r hf
    unfold load
    rw [hdirect, hf]
  · intro r1 r2 rest hf
    unfold load
    rw [hdirect, hf]

/-- Witness for C3: two resources both named `X` resolve to an
`Ambiguous` failure listing both identifiers. -/
theorem load_name_resolution_witness :
    ((fun _ : String => false) "X" = false ∨
      (fun _ : String => (none : Option Resource)) "X" = none) ∧
    load (fun _ => false) (fun _ => none) [⟨"id1", "X"⟩, ⟨"id2", "X"⟩] "X" =
      Except.error (OsError.Ambiguous ["id1", "id2"]) :=
  ⟨Or.inl rfl,
    (load_name_resolution (fun _ => false) (fun _ => none)
        [⟨"id1", "X"⟩, ⟨"id2", "X"⟩] "X" (Or.inl rfl)).2.2
      ⟨"id1", "X"⟩ ⟨"id2", "X"⟩ [] (by decide)⟩

/-- Setting a key on a well-formed query leaves exactly one entry for
that key, carrying the new value. -/
theorem keyEntries_qset_self (q : WireQuery) (k v : String)
    (hwf : (keyEntries q k).length ≤ 1) :
    keyEntries (qset q k v) k = [(k, v)] := by
  induction q with
  | nil => simp [qset, keyEntries]
  | cons p rest ih =>
    by_cases hp : p.1 = k
    · simp only [qset, if_pos hp]
      have hke : keyEntries (p :: rest) k = p :: keyEntries rest k := by
        simp [keyEntries, List.filter_cons, hp]
      rw [hke] at hwf
      simp only [List.length_cons] at hwf
      have h0 : (keyEntries rest k).length = 0 := by omega
      have hrest : keyEntries rest k = [] := List.eq_nil_of_length_eq_zero h0
      simp only [keyEntries, List.filter_cons] at hrest ⊢
      simp [hrest]
    · simp only [qset, if_neg hp]
      have hke : keyEntries (p :: rest) k = keyEntries rest k := by
        simp [keyEntries, List.filter_cons, hp]
      rw [hke] at hwf
      have hrec := ih hwf
      simp only [keyEntries, List.filter_cons] at hrec ⊢
      simp [hp, hrec]

/-- Setting one key does not change the entries of any other key. -/
theorem keyEntries_qset_other (q : WireQuery) (k v k' : String) (hk : k' ≠ k) :
    keyEntries (qset q k v) k' = keyEntries q k' := by
  induction q with
  | nil => simp [qset, keyEntries, Ne.symm hk]
  | cons p rest ih =>
    by_cases hp : p.1 = k
    · simp only [qset, if_pos hp]
      simp [keyEntries, List.filter_cons, hp, Ne.symm hk]
    · simp only [qset, if_neg hp]
      simp only [keyEntries, List.filter_cons] at ih ⊢
      cases hpp : (p.1 == k') <;> simp [hpp, ih]

/-- Setting a key preserves well-formedness: keys stay pairwise distinct. -/
theorem wellFormedQuery_qset (q : WireQuery) (k v : String) (hwf : WellFormedQuery q) :
    WellFormedQuery (qset q k v) := by
  intro k'
  by_cases hk : k' = k
  · rw [hk, keyEntries_qset_self q k v (hwf k)]
    simp
  · rw [keyEntries_qset_other q k v k' hk]
    exact hwf k'

/-- Setting the same key to the same value twice is the same as
setting it once. -/
theorem qset_idem (q : WireQuery) (k v : String) : qset (qset q k v) k v = qset q k v := by
  induction q with
  | nil => simp [qset]
  | cons p rest ih =>
    by_cases hp : p.1 = k
    · simp [qset, hp]
    · simp [qset, hp, ih]

/-- C6: the wire query each object-storage listing sends contains
exactly one `format` parameter, with value `json`, even when the
caller's well-formed query already carries a `format` key; setting the
same key twice overwrites (last write wins) instead of duplicating the
parameter. -/
theorem forced_format_json_unique (q : WireQuery) (c : String)
    (hwf : WellFormedQuery q) :
    keyEntries (list_containers_wire q) "format" = [("format", "json")] ∧
    keyEntries (list_objects_wire c q) "format" = [("format", "json")] ∧
    qset (list_containers_wire q) "format" "json" = list_containers_wire q :=
  ⟨keyEntries_qset_self q "format" "json" (hwf "format"),
    keyEntries_qset_self q "format" "json" (hwf "format"),
    qset_idem q "format" "json"⟩

/-- Witness for C6: a caller query that already carries a `format`
key still yields exactly one `format=json` wire parameter. -/
theorem forced_format_json_unique_witness :
    WellFormedQuery [("format", "xml")] ∧
    keyEntries (list_containers_wire [("format", "xml")]) "format" =
      [("format", "json")] :=
  have hwf : WellFormedQuery [("format", "xml")] := fun k =>
    le_trans (List.length_filter_le (fun p => p.1 == k) [("format", "xml")]) (by decide)
  ⟨hwf, (forced_format_json_unique [("format", "xml")] "c" hwf).1⟩

/-- C7: the HTTP-date `Wed, 21 Oct 2023 07:28:00 GMT` decodes to the
UTC timestamp 2023-10-21T07:28:00Z, a malformed date string decodes to
nothing, and a listing response containing any record with a malformed
`last_modified` fails as a whole with a deserialization error rather
than producing an item with a defaulted timestamp. -/
theorem http_date_decode_spec :
    deser_http_date "Wed, 21 Oct 2023 07:28:00 GMT" = some ⟨2023, 10, 21, 7, 28, 0⟩ ∧
    deser_http_date "not a date" = none ∧
    (∀ (rows : List RawContainer) (r : RawContainer), r ∈ rows →
      deser_http_date r.last_modified = none →
      ∃ e, decodeContainers rows = Except.error e) := by
  refine ⟨by decide, by decide, ?_⟩
  intro rows r hmem hbad
  induction rows with
  | nil => simp at hmem
  | cons a rest ih =>
    rcases List.mem_cons.mp hmem with rfl | hmem'
    · have hda : deserContainer r = Except.error OsError.Deserialization := by
        unfold deserContainer
        rw [hbad]
      exact ⟨OsError.Deserialization, by simp [decodeContainers, hda]⟩
    · obtain ⟨e, he⟩ := ih hmem'
      cases hda : deserContainer a with
      | error ea => exact ⟨ea, by simp [decodeContainers, hda]⟩
      | ok ca => exact ⟨e, by simp [decodeContainers, hda, he]⟩

/-- Witness for C7: a one-row listing whose date is malformed fails to
decode as a whole. -/
theorem http_date_decode_spec_witness :
    (⟨1, 2, "not a date", "c"⟩ : RawContainer) ∈ [(⟨1, 2, "not a date", "c"⟩ : RawContainer)] ∧
    deser_http_date (RawContainer.last_modified ⟨1, 2, "not a date", "c"⟩) = none ∧
    ∃ e, decodeContainers [⟨1, 2, "not a date", "c"⟩] = Except.error e :=
  ⟨by decide, by decide,
    http_date_decode_spec.2.2 [⟨1, 2, "not a date", "c"⟩] ⟨1, 2, "not a date", "c"⟩
      (by decide) (by decide)⟩

/-- C9: every convenience listing method on `Cloud` returns exactly
the result of building the corresponding `find_*` query — no filters,
no sort, no limit — and draining it with `all()`. -/
theorem list_methods_unconfigured {α : Type} (server : Server α) (markerOf : α → String)
    (P fuel : Nat) :
    list_servers server markerOf P fuel = unconfiguredAll server markerOf P fuel ∧
    list_flavors server markerOf P fuel = unconfiguredAll server markerOf P fuel ∧
    list_networks server markerOf P fuel = unconfiguredAll server markerOf P fuel ∧
    list_subnets server markerOf P fuel = unconfiguredAll server markerOf P fuel ∧
    list_ports server markerOf P fuel = unconfiguredAll server markerOf P fuel ∧
    list_images server markerOf P fuel = unconfiguredAll server markerOf P fuel ∧
    list_keypairs server markerOf P fuel = unconfiguredAll server markerOf P fuel ∧
    list_floating_ips server markerOf P fuel = unconfiguredAll server markerOf P fuel :=
  ⟨rfl, rfl, rfl, rfl, rfl, rfl, rfl, rfl⟩

/-- Applying `Rc::make_mut` on a shared pointer (strong count at least two)
allocates the mutated copy at a fresh address and returns that
address. -/
theorem rcMakeMut_shared (w : RcWorld) (p : Nat) (f : SyncSession → SyncSession)
    (h : 2 ≤ w.count.getD p 0) :
    rcMakeMut w p f = (⟨w.store ++ [f (w.store.getD p ⟨"", 0⟩)],
      (w.count.set p (w.count.getD p 0 - 1)) ++ [1]⟩, w.store.length) := by
  unfold rcMakeMut
  rw [if_neg (by omega)]

/-- C10: when a `Cloud`'s session is shared (its strong count is at
least two), `with_endpoint_interface` and `refresh` copy the session
first and mutate only the copy: every previously allocated session —
in particular the one other `Cloud` clones and already-derived query
builders point at — is observed unchanged, while the calling handle
observes the mutation on its fresh copy. -/
theorem cloud_cow_frame (w : RcWorld) (c : Cloud) (ei : String)
    (hshared : 2 ≤ w.count.getD c.ptr 0) :
    (∀ p, p < w.store.length →
      sessionAt (with_endpoint_interface w c ei).1 p = sessionAt w p ∧
      sessionAt (cloudRefresh w c).1 p = sessionAt w p) ∧
    sessionAt (with_endpoint_interface w c ei).1 (with_endpoint_interface w c ei).2.ptr =
      set_endpoint_interface (sessionAt w c.ptr) ei ∧
    sessionAt (cloudRefresh w c).1 (cloudRefresh w c).2.ptr =
      refreshSession (sessionAt w c.ptr) := by
  have hw : with_endpoint_interface w c ei =
      (⟨w.store ++ [set_endpoint_interface (w.store.getD c.ptr ⟨"", 0⟩) ei],
        (w.count.set c.ptr (w.count.getD c.ptr 0 - 1)) ++ [1]⟩, ⟨w.store.length⟩) := by
    unfold with_endpoint_interface
    rw [rcMakeMut_shared w c.ptr _ hshared]
  have hr : cloudRefresh w c =
      (⟨w.store ++ [refreshSession (w.store.getD c.ptr ⟨"", 0⟩)],
        (w.count.set c.ptr (w.count.getD c.ptr 0 - 1)) ++ [1]⟩, ⟨w.store.length⟩) := by
    unfold cloudRefresh
    rw [rcMakeMut_shared w c.ptr _ hshared]
  refine ⟨?_, ?_, ?_⟩
  · intro p hp
    rw [hw, hr]
    unfold sessionAt
    constructor <;>
      · dsimp only
        rw [List.getD_eq_getElem?_getD, List.getD_eq_getElem?_getD,
          List.getElem?_append_left hp]
        exact (List.getD_eq_getElem?_getD w.store p _).symm
  · rw [hw]
    unfold sessionAt
    dsimp only
    rw [List.getD_eq_getElem?_getD, List.getElem?_concat_length]
    rfl
  · rw [hr]
    unfold sessionAt
    dsimp only
    rw [List.getD_eq_getElem?_getD, List.getElem?_concat_length]
    rfl

/-- Witness for C10: one session shared by two handles; mutating
through one leaves the session at the old address untouched, and the
mutating handle sees the new endpoint interface. -/
theorem cloud_cow_frame_witness :
    2 ≤ (⟨[⟨"public", 0⟩], [2]⟩ : RcWorld).count.getD (⟨0⟩ : Cloud).ptr 0 ∧
    0 < (⟨[⟨"public", 0⟩], [2]⟩ : RcWorld).store.length ∧
    (sessionAt (with_endpoint_interface ⟨[⟨"public", 0⟩], [2]⟩ ⟨0⟩ "internal").1 0 =
        sessionAt ⟨[⟨"public", 0⟩], [2]⟩ 0 ∧
      sessionAt (cloudRefresh ⟨[⟨"public", 0⟩], [2]⟩ ⟨0⟩).1 0 =
        sessionAt ⟨[⟨"public", 0⟩], [2]⟩ 0) :=
  ⟨by decide, by decide,
    (cloud_cow_frame ⟨[⟨"public", 0⟩], [2]⟩ ⟨0⟩ "internal" (by decide)).1 0 (by decide)⟩

end OpenStackSpec


